import Mathlib

/-!
Verification of the WhatsApp chat-export parser
(`whatsapp_analyzer/core/parser.py`).

Strings are modelled as `List Char` (`Str`), so that Python's string
operations (splitting, stripping, substring search) become executable
structural recursions amenable to induction.
-/

set_option maxRecDepth 8000

abbrev Str := List Char

/-- Python whitespace characters (the set recognised by `str.isspace`,
`str.strip()` with no argument, and the regex class `\s` on `str`). -/
def pyWsChars : Str :=
  [' ', '\t', '\n', '\r', '\x0b', '\x0c',
   '\x1c', '\x1d', '\x1e', '\x1f', '\u0085', ' ',
   ' ', ' ', ' ', ' ', ' ', ' ', ' ',
   ' ', ' ', ' ', ' ', ' ',
   ' ', ' ', ' ', ' ', '　']

def isPySpace (c : Char) : Bool := pyWsChars.contains c

/-- ASCII decimal digit (the `[0-9]` class; `\d` on the inputs at hand). -/
def isDigit (c : Char) : Bool := '0' ≤ c && c ≤ '9'

/-- Python `s.split(sep, 1)` when it returns two parts: locates the first
occurrence of `sep` and yields the text before and after it; `none` when
`sep` does not occur (Python then returns the single-element list, which
makes a two-variable unpacking raise). -/
def splitFirst (sep : Str) : Str → Option (Str × Str)
  | [] => if sep.isPrefixOf ([] : Str) then some ([], []) else none
  | c :: t =>
    if sep.isPrefixOf (c :: t) then some ([], (c :: t).drop sep.length)
    else (splitFirst sep t).map (fun p => (c :: p.1, p.2))

/-- Python `sep in s` (substring containment). -/
def containsSub (sep s : Str) : Bool := (splitFirst sep s).isSome

/-- Python `s.lstrip()`. -/
def lstripPy (s : Str) : Str := s.dropWhile isPySpace

/-- Python `s.strip()` (whitespace on both ends). -/
def stripPy (s : Str) : Str :=
  ((s.dropWhile isPySpace).reverse.dropWhile isPySpace).reverse

/-- Python `s.strip(chars)` for an explicit character set. -/
def stripChars (cs : Str) (s : Str) : Str :=
  ((s.dropWhile cs.contains).reverse.dropWhile cs.contains).reverse

/-- Python `" ".join(parts)`. -/
def joinSp (parts : List Str) : Str := List.intercalate [' '] parts

/-- `_clean_line`: removes the U+200E/U+200F directionality marks anywhere in
the line, then strips BOM / newline / carriage-return characters from both
ends (the source's `strip("﻿\n\r")`). -/
def cleanLine (l : Str) : Str :=
  stripChars ['﻿', '\n', '\r']
    ((l.filter (· ≠ '‎')).filter (· ≠ '‏'))

/-! ### Format matchers

`ANDROID_PATTERN` and `IOS_PATTERN` are anchored regexes; we implement them
as explicit consuming matchers that return the matched groups and remaining
text.  Bounded-repetition atoms followed by a literal are matched by taking
the maximal digit run and checking its length (equivalent to the regex's
backtracking, since a longer or shorter digit run always leaves a digit in
front of the non-digit literal); the few places where genuine backtracking
matters (`\s*` before the optional meridiem, optional seconds) are matched
by trying the alternatives in the regex's order. -/

/-- Consume one expected character. -/
def eat (c : Char) : Str → Option Str
  | x :: r => if x = c then some r else none
  | [] => none

/-- Consume a maximal digit run whose length lies in `[lo, hi]`
(the regex atom `[0-9]\x7blo,hi\x7d` followed by a non-digit). -/
def eatDigitsRun (lo hi : Nat) (l : Str) : Option (Str × Str) :=
  let a := l.takeWhile isDigit
  if lo ≤ a.length ∧ a.length ≤ hi then some (a, l.dropWhile isDigit) else none

/-- Consume exactly two digits (the regex atom `[0-9][0-9]`). -/
def eatTwoDigits : Str → Option (Str × Str)
  | a :: b :: r => if isDigit a && isDigit b then some ([a, b], r) else none
  | _ => none

/-- The alternation `AM|PM|am|pm` as a leading-text matcher. -/
def ampmSplit : Str → Option (Str × Str)
  | 'A' :: 'M' :: r => some (['A', 'M'], r)
  | 'P' :: 'M' :: r => some (['P', 'M'], r)
  | 'a' :: 'm' :: r => some (['a', 'm'], r)
  | 'p' :: 'm' :: r => some (['p', 'm'], r)
  | _ => none

/-- Groups of a successful `ANDROID_PATTERN` match:
`^(m)/(d)/(y), (h):(mi)\s*(ampm)? -` followed by `rest`. -/
structure AndroidG where
  m : Str
  d : Str
  y : Str
  h : Str
  mi : Str
  ws : Str
  ampm : Option Str
  rest : Str
  deriving DecidableEq, Repr

/-- The tail `\s*([AP]M|am|pm)? -` of `ANDROID_PATTERN`, applied after the
minutes.  It admits exactly two shapes: all whitespace consumed, then the
meridiem, then a literal space and hyphen; or no meridiem, with the last
whitespace character (necessarily a plain space) serving as the literal
space before the hyphen — the only residue of the regex's backtracking. -/
def androidTail (m d y h mi r10 : Str) : Option AndroidG :=
  match ampmSplit (r10.dropWhile isPySpace) with
  | some (p, r12) =>
    match eat ' ' r12 with
    | none => none
    | some r13 =>
      match eat '-' r13 with
      | none => none
      | some r14 => some ⟨m, d, y, h, mi, r10.takeWhile isPySpace, some p, r14⟩
  | none =>
    match (r10.takeWhile isPySpace).getLast?, r10.dropWhile isPySpace with
    | some ' ', '-' :: r12 =>
      some ⟨m, d, y, h, mi, (r10.takeWhile isPySpace).dropLast, none, r12⟩
    | _, _ => none

/-- `ANDROID_PATTERN.match(line)`: `^([0-9]\x7b1,2\x7d)/([0-9]\x7b1,2\x7d)/([0-9]\x7b2,4\x7d), ([0-9]\x7b1,2\x7d):([0-9]\x7b2\x7d)\s*([AP]M|am|pm)? -`. -/
def androidMatch (l : Str) : Option AndroidG :=
  match eatDigitsRun 1 2 l with
  | none => none
  | some (m, r1) =>
    match eat '/' r1 with
    | none => none
    | some r2 =>
      match eatDigitsRun 1 2 r2 with
      | none => none
      | some (d, r3) =>
        match eat '/' r3 with
        | none => none
        | some r4 =>
          match eatDigitsRun 2 4 r4 with
          | none => none
          | some (y, r5) =>
            match eat ',' r5 with
            | none => none
            | some r6 =>
              match eat ' ' r6 with
              | none => none
              | some r7 =>
                match eatDigitsRun 1 2 r7 with
                | none => none
                | some (h, r8) =>
                  match eat ':' r8 with
                  | none => none
                  | some r9 =>
                    match eatTwoDigits r9 with
                    | none => none
                    | some (mi, r10) => androidTail m d y h mi r10

/-- `_is_android_format`. -/
def isAndroidFormat (l : Str) : Bool := (androidMatch l).isSome

/-- The `_SP` character class of `IOS_PATTERN`
(`[ \u00A0\u202F\u2009\u200A\u2002-\u2006\u2007\u2008]`). -/
def iosSpChars : Str :=
  [' ', '\u00A0', '\u202F', '\u2009', '\u200A',
   '\u2002', '\u2003', '\u2004', '\u2005', '\u2006', '\u2007', '\u2008']

def isIosSp (c : Char) : Bool := iosSpChars.contains c

/-- Groups of a successful `IOS_PATTERN` match: the date group, the time
group (seconds included when present), the optional meridiem group, and the
text after the closing bracket (`line[match.end():]`). -/
structure IOSG where
  date : Str
  time : Str
  ampm : Option Str
  rest : Str
  deriving DecidableEq, Repr

/-- The tail `(?:SP*(AM|PM|am|pm))?\]` of `IOS_PATTERN`: either some
spacing then a meridiem then `]`, or — since a shorter space run would
leave a space character where `]` or a meridiem letter is required — no
spacing at all and an immediate `]`. -/
def iosTail (r : Str) : Option (Option Str × Str) :=
  let w := r.takeWhile isIosSp
  let r' := r.dropWhile isIosSp
  match ampmSplit r' with
  | some (p, r2) => (eat ']' r2).map (fun r3 => (some p, r3))
  | none => if w = [] then (eat ']' r').map (fun r3 => ((none : Option Str), r3)) else none

/-- `IOS_PATTERN.match(line)`: an opening bracket, the date
(one-or-two digits, a slash-or-hyphen separator, one-or-two digits,
a separator, two-to-four digits), an optional comma and some SP spacing,
the time (`h:mm` with optional `:ss`), an optional meridiem preceded by SP
spacing, and the closing bracket.
The optional seconds group is tried greedily first, falling back to the
secondless reading if the rest of the pattern then fails. -/
def iosMatch (l : Str) : Option IOSG := do
  let r0 ← eat '[' l
  let (p1, r1) ← eatDigitsRun 1 2 r0
  let s1 ← match r1 with
    | '/' :: _ => some '/'
    | '-' :: _ => some '-'
    | _ => none
  let r2 := r1.drop 1
  let (p2, r3) ← eatDigitsRun 1 2 r2
  let s2 ← match r3 with
    | '/' :: _ => some '/'
    | '-' :: _ => some '-'
    | _ => none
  let r4 := r3.drop 1
  let (y, r5) ← eatDigitsRun 2 4 r4
  -- `,?` then `SP+`: the optional comma is consumed when present (a comma
  -- can never satisfy the following SP+, so no backtracking arises).
  let r6 := match r5 with
    | ',' :: r => r
    | r => r
  let sp1 := r6.takeWhile isIosSp
  let r7 := r6.dropWhile isIosSp
  if sp1 = [] then none
  else
    let (h, r8) ← eatDigitsRun 1 2 r7
    let r9 ← eat ':' r8
    let (mm, r10) ← eatTwoDigits r9
    let date := p1 ++ s1 :: p2 ++ s2 :: y
    let timeBase := h ++ ':' :: mm
    match (do
        let ra ← eat ':' r10
        let (ss, rb) ← eatTwoDigits ra
        pure (ss, rb) : Option (Str × Str)) with
    | some (ss, rb) =>
      match iosTail rb with
      | some (p, rest) => some ⟨date, timeBase ++ ':' :: ss, p, rest⟩
      | none =>
        (iosTail r10).map (fun pr => ⟨date, timeBase, pr.1, pr.2⟩)
    | none =>
      (iosTail r10).map (fun pr => ⟨date, timeBase, pr.1, pr.2⟩)

/-- `_is_ios_format`. -/
def isIOSFormat (l : Str) : Bool := (iosMatch l).isSome

/-- The `(date, time, author, message)` tuple produced by the per-line
extractors. -/
structure Hdr where
  date : Str
  time : Str
  author : Option Str
  msg : Str
  deriving DecidableEq, Repr

/-- `_parse_android_line`: split on the first `" - "`, split the left part
on the first `", "`, then split author from message on the first `": "`
when a colon is present.  `none` models the raised `ChatParseError`
(including the unpacking error when `":"` occurs but `": "` does not). -/
def parseAndroidLine (l : Str) : Option Hdr :=
  match splitFirst [' ', '-', ' '] l with
  | none => none
  | some (dt, mp) =>
    match splitFirst [',', ' '] dt with
    | none => none
    | some (date, time) =>
      if containsSub [':'] mp then
        match splitFirst [':', ' '] mp with
        | some (a, msg) => some ⟨date, time, some a, msg⟩
        | none => none
      else some ⟨date, time, none, mp⟩

/-- Python's `str.upper` restricted to the meridiem strings in play. -/
def upperAmpm (p : Str) : Str :=
  p.map (fun c => if c = 'a' then 'A' else if c = 'p' then 'P' else if c = 'm' then 'M' else c)

/-- `_parse_ios_line`: re-match the pattern, normalise the meridiem onto the
time, take the text after the bracket, and split author from message on the
first colon; an empty message marks a system message. -/
def parseIOSLine (l : Str) : Option Hdr :=
  match iosMatch l with
  | none => none
  | some g =>
    let time := match g.ampm with
      | some p => g.time ++ ' ' :: upperAmpm p
      | none => g.time
    let mp := lstripPy g.rest
    match splitFirst [':'] mp with
    | some (a, m) =>
      let author := stripPy a
      let message := stripPy m
      if message = [] then
        some ⟨g.date, time, none, "System message from ".toList ++ author⟩
      else some ⟨g.date, time, some author, message⟩
    | none => some ⟨g.date, time, none, stripPy mp⟩

/-! ### Timestamp resolver

`_parse_timestamp` delegates to `datetime.strptime`.  We model the strptime
directives that the two fixed template lists use (`%m %d %y %Y %H %I %M %S
%p`), with CPython's alternation order for each directive's regex, its
whole-string-consumed requirement, and the `datetime` constructor's
validation of the resulting calendar date. -/

/-- Numeric value of an ASCII digit. -/
def dval (c : Char) : Nat := c.toNat - 48

/-- The alternatives a strptime directive admits at the head of the input,
as `(value, remaining)` pairs in the order CPython's generated regex tries
them (two-digit alternatives before the bare one-digit `[1-9]` or `\d`).
`%p` yields 0 for AM and 1 for PM (matched case-insensitively). -/
def dirAlts : Char → Str → List (Nat × Str)
  | 'm', a :: b :: r =>
    (if a = '1' && ('0' ≤ b && b ≤ '2') then [(10 + dval b, r)] else []) ++
    (if a = '0' && ('1' ≤ b && b ≤ '9') then [(dval b, r)] else []) ++
    (if '1' ≤ a && a ≤ '9' then [(dval a, b :: r)] else [])
  | 'm', [a] => if '1' ≤ a && a ≤ '9' then [(dval a, [])] else []
  | 'I', a :: b :: r =>
    (if a = '1' && ('0' ≤ b && b ≤ '2') then [(10 + dval b, r)] else []) ++
    (if a = '0' && ('1' ≤ b && b ≤ '9') then [(dval b, r)] else []) ++
    (if '1' ≤ a && a ≤ '9' then [(dval a, b :: r)] else [])
  | 'I', [a] => if '1' ≤ a && a ≤ '9' then [(dval a, [])] else []
  | 'd', a :: b :: r =>
    (if a = '3' && ('0' ≤ b && b ≤ '1') then [(30 + dval b, r)] else []) ++
    (if ('1' ≤ a && a ≤ '2') && isDigit b then [(10 * dval a + dval b, r)] else []) ++
    (if a = '0' && ('1' ≤ b && b ≤ '9') then [(dval b, r)] else []) ++
    (if '1' ≤ a && a ≤ '9' then [(dval a, b :: r)] else [])
  | 'd', [a] => if '1' ≤ a && a ≤ '9' then [(dval a, [])] else []
  | 'H', a :: b :: r =>
    (if a = '2' && ('0' ≤ b && b ≤ '3') then [(20 + dval b, r)] else []) ++
    (if ('0' ≤ a && a ≤ '1') && isDigit b then [(10 * dval a + dval b, r)] else []) ++
    (if isDigit a then [(dval a, b :: r)] else [])
  | 'H', [a] => if isDigit a then [(dval a, [])] else []
  | 'M', a :: b :: r =>
    (if ('0' ≤ a && a ≤ '5') && isDigit b then [(10 * dval a + dval b, r)] else []) ++
    (if isDigit a then [(dval a, b :: r)] else [])
  | 'M', [a] => if isDigit a then [(dval a, [])] else []
  | 'S', a :: b :: r =>
    (if a = '6' && ('0' ≤ b && b ≤ '1') then [(60 + dval b, r)] else []) ++
    (if ('0' ≤ a && a ≤ '5') && isDigit b then [(10 * dval a + dval b, r)] else []) ++
    (if isDigit a then [(dval a, b :: r)] else [])
  | 'S', [a] => if isDigit a then [(dval a, [])] else []
  | 'y', a :: b :: r => if isDigit a && isDigit b then [(10 * dval a + dval b, r)] else []
  | 'Y', a :: b :: c :: d :: r =>
    if isDigit a && isDigit b && isDigit c && isDigit d then
      [(1000 * dval a + 100 * dval b + 10 * dval c + dval d, r)]
    else []
  | 'p', a :: b :: r =>
    if (a = 'a' || a = 'A') && (b = 'm' || b = 'M') then [(0, r)]
    else if (a = 'p' || a = 'P') && (b = 'm' || b = 'M') then [(1, r)]
    else []
  | _, _ => []

/-- Accumulated strptime fields (each `none` until its directive fires). -/
structure SField where
  fy : Option Nat := none
  fY : Option Nat := none
  fm : Option Nat := none
  fd : Option Nat := none
  fH : Option Nat := none
  fI : Option Nat := none
  fM : Option Nat := none
  fS : Option Nat := none
  fp : Option Nat := none
  deriving DecidableEq, Repr

def setField (st : SField) : Char → Nat → SField
  | 'y', v => { st with fy := some v }
  | 'Y', v => { st with fY := some v }
  | 'm', v => { st with fm := some v }
  | 'd', v => { st with fd := some v }
  | 'H', v => { st with fH := some v }
  | 'I', v => { st with fI := some v }
  | 'M', v => { st with fM := some v }
  | 'S', v => { st with fS := some v }
  | 'p', v => { st with fp := some v }
  | _, _ => st

/-- Run a format string against the input.  A whitespace character in the
format matches one-or-more whitespace characters of input (CPython rewrites
whitespace runs to `\s+`; in the templates at hand the token after a space
never matches whitespace, so the greedy reading is exact); other literal
characters match themselves; `%` introduces a directive whose alternatives
are tried in order against the rest of the format.  The whole input must be
consumed (`unconverted data remains` otherwise). -/
def runFmt : Str → Str → SField → Option SField
  | [], [], st => some st
  | [], _ :: _, _ => none
  | '%' :: dr :: fr, inp, st =>
    (dirAlts dr inp).findSome? (fun vr => runFmt fr vr.2 (setField st dr vr.1))
  | c :: fr, inp, st =>
    if isPySpace c then
      match inp.takeWhile isPySpace, inp.dropWhile isPySpace with
      | [], _ => none
      | _ :: _, rest => runFmt fr rest st
    else
      match inp with
      | i :: ir => if i = c then runFmt fr ir st else none
      | [] => none

/-- The datetime value strptime produces (naive, second precision). -/
structure PyDateTime where
  year : Nat
  month : Nat
  day : Nat
  hour : Nat
  minute : Nat
  second : Nat
  deriving DecidableEq, Repr

def isLeapYear (y : Nat) : Bool := y % 4 = 0 && (y % 100 ≠ 0 || y % 400 = 0)

def daysInMonth (y m : Nat) : Nat :=
  if m = 2 then (if isLeapYear y then 29 else 28)
  else if m = 4 || m = 6 || m = 9 || m = 11 then 30
  else 31

/-- Assemble the parsed fields into a datetime, applying CPython's
century-window rule for `%y` (≤ 68 maps to 2000+), its 12-hour-clock
conversion for `%I`/`%p` (an absent or AM meridiem sends 12 to 0; PM adds
12 except at 12), and the `datetime` constructor's range validation, whose
failure (e.g. February 30, or second 61 admitted by `%S`) raises the
`ValueError` that `_parse_timestamp` swallows. -/
def buildDT (st : SField) : Option PyDateTime :=
  let year := match st.fY, st.fy with
    | some v, _ => v
    | none, some v => if v ≤ 68 then 2000 + v else 1900 + v
    | none, none => 1900
  let month := st.fm.getD 1
  let day := st.fd.getD 1
  let hour := match st.fH, st.fI with
    | some v, _ => v
    | none, some v =>
      if st.fp = some 1 then (if v = 12 then 12 else v + 12)
      else (if v = 12 then 0 else v)
    | none, none => 0
  let minute := st.fM.getD 0
  let second := st.fS.getD 0
  if 1 ≤ year ∧ year ≤ 9999 ∧ 1 ≤ month ∧ month ≤ 12 ∧
      1 ≤ day ∧ day ≤ daysInMonth year month ∧
      hour ≤ 23 ∧ minute ≤ 59 ∧ second ≤ 59 then
    some ⟨year, month, day, hour, minute, second⟩
  else none

/-- `datetime.strptime(data, fmt)`, `none` for the `ValueError` cases. -/
def strptime (data fmt : Str) : Option PyDateTime :=
  (runFmt fmt data {}).bind buildDT

/-- The Android template list, in source order: month-first (US style)
before day-first (European/Indian style). -/
def androidFormats : List Str :=
  ["%m/%d/%Y %I:%M %p".toList, "%m/%d/%y %I:%M %p".toList,
   "%m/%d/%Y %H:%M".toList, "%m/%d/%y %H:%M".toList,
   "%d/%m/%Y %I:%M %p".toList, "%d/%m/%y %I:%M %p".toList,
   "%d/%m/%Y %H:%M".toList, "%d/%m/%y %H:%M".toList]

/-- The iOS template list, in source order: day-first before month-first. -/
def iosFormats : List Str :=
  ["%d-%m-%Y %H:%M:%S".toList, "%d-%m-%y %H:%M:%S".toList,
   "%d/%m/%Y %H:%M:%S".toList, "%d/%m/%y %H:%M:%S".toList,
   "%d-%m-%Y %H:%M".toList, "%d-%m-%y %H:%M".toList,
   "%d/%m/%Y %H:%M".toList, "%d/%m/%y %H:%M".toList,
   "%d-%m-%Y %I:%M:%S %p".toList, "%d-%m-%y %I:%M:%S %p".toList,
   "%d/%m/%Y %I:%M:%S %p".toList, "%d/%m/%y %I:%M:%S %p".toList,
   "%d-%m-%Y %I:%M %p".toList, "%d-%m-%y %I:%M %p".toList,
   "%d/%m/%Y %I:%M %p".toList, "%d/%m/%y %I:%M %p".toList,
   "%m-%d-%Y %H:%M:%S".toList, "%m-%d-%y %H:%M:%S".toList,
   "%m/%d/%Y %H:%M:%S".toList, "%m/%d/%y %H:%M:%S".toList,
   "%m-%d-%Y %H:%M".toList, "%m-%d-%y %H:%M".toList,
   "%m/%d/%Y %H:%M".toList, "%m/%d/%y %H:%M".toList,
   "%m-%d-%Y %I:%M:%S %p".toList, "%m-%d-%y %I:%M:%S %p".toList,
   "%m/%d/%Y %I:%M:%S %p".toList, "%m/%d/%y %I:%M:%S %p".toList,
   "%m-%d-%Y %I:%M %p".toList, "%m-%d-%y %I:%M %p".toList,
   "%m/%d/%Y %I:%M %p".toList, "%m/%d/%y %I:%M %p".toList]

/-- `_parse_timestamp`: joins date and time with a space and returns the
first template (in list order) that parses, `none` when all fail. -/
def parseTimestamp (date time platform : Str) : Option PyDateTime :=
  let s := date ++ ' ' :: time
  (if platform = "android".toList then androidFormats else iosFormats).findSome?
    (fun fmt => strptime s fmt)

/-! ### Platform detection, assembly, and the full `parse_chat` pipeline -/

/-- The exception kinds of the module.  `valueError` is never produced by
the code; it exists to state the spec's expectations about it. -/
inductive ChatErr where
  | chatParseError : Str → ChatErr
  | platformDetectionError : Str → ChatErr
  | valueError : Str → ChatErr
  deriving DecidableEq, Repr

/-- `str(e)` of an exception: its message. -/
def errMsg : ChatErr → Str
  | .chatParseError m => m
  | .platformDetectionError m => m
  | .valueError m => m

def digitChar (n : Nat) : Char := Char.ofNat (48 + n)

def natToStrAux : Nat → Nat → Str
  | 0, _ => []
  | fuel + 1, n => if n = 0 then [] else natToStrAux fuel (n / 10) ++ [digitChar (n % 10)]

/-- Decimal rendering of a natural number (for the f-strings in messages). -/
def natToStr (n : Nat) : Str := if n = 0 then ['0'] else natToStrAux n n

/-- The tallying loop of `detect_platform` over `lines[:100]`: each line is
`line.strip()`-ped then `_clean_line`-ed; empty results are skipped; an
Android match increments the first counter, else an iOS match the second. -/
def detectCounts : List Str → Nat → Nat → Nat × Nat
  | [], a, i => (a, i)
  | l :: rest, a, i =>
    let c := cleanLine (stripPy l)
    if c = [] then detectCounts rest a i
    else if isAndroidFormat c then detectCounts rest (a + 1) i
    else if isIOSFormat c then detectCounts rest a (i + 1)
    else detectCounts rest a i

/-- `detect_platform`: tallies over the first 100 raw lines and returns the
strict majority format, raising `PlatformDetectionError` on any tie. -/
def detectPlatform (lines : List Str) : Except ChatErr Str :=
  let c := detectCounts (lines.take 100) 0 0
  if c.1 > c.2 then .ok "android".toList
  else if c.2 > c.1 then .ok "ios".toList
  else .error (.platformDetectionError
    ("Could not determine platform. Android: ".toList ++ natToStr c.1 ++
     ", iOS: ".toList ++ natToStr c.2))

/-- A row of `parsed_messages`: the captured date/time/author (still `None`
when no header has been seen) and the joined, stripped message text. -/
structure RawRec where
  date : Option Str
  time : Option Str
  author : Option Str
  msg : Str
  deriving DecidableEq, Repr

/-- Flushing the message buffer: emits one row built from the current
header state, or nothing when the buffer is empty. -/
def flushBuf (d t a : Option Str) (buf : List Str) : List RawRec :=
  if buf = [] then [] else [⟨d, t, a, stripPy (joinSp buf)⟩]

/-- The assembly loop of `parse_chat`: clean each line, skip empty results,
start a new record on a format-matching line (flushing the previous
buffer), append any other line to the buffer, and flush at end of input.
An extraction failure on a matching line propagates as the raised
`ChatParseError` (the source embeds the offending line in the message). -/
def assemble (isF : Str → Bool) (pl : Str → Option Hdr) :
    List Str → Option Str → Option Str → Option Str → List Str →
    Except ChatErr (List RawRec)
  | [], d, t, a, buf => .ok (flushBuf d t a buf)
  | l :: rest, d, t, a, buf =>
    let cl := cleanLine l
    if cl = [] then assemble isF pl rest d t a buf
    else if isF cl then
      match pl cl with
      | none => .error (.chatParseError ("Failed to parse line: ".toList ++ cl))
      | some hdr =>
        match assemble isF pl rest (some hdr.date) (some hdr.time) hdr.author [hdr.msg] with
        | .ok recs => .ok (flushBuf d t a buf ++ recs)
        | .error e => .error e
    else assemble isF pl rest d t a (buf ++ [cl])

/-- `_is_android_format if platform == "android" else _is_ios_format`. -/
def isFmtFor (p : Str) : Str → Bool :=
  if p = "android".toList then isAndroidFormat else isIOSFormat

/-- `_parse_android_line if platform == "android" else _parse_ios_line`. -/
def parseLineFor (p : Str) : Str → Option Hdr :=
  if p = "android".toList then parseAndroidLine else parseIOSLine

/-- `f"\x7bdate\x7d \x7btime\x7d"` renders `None` as the string `None`. -/
def pyStrOf : Option Str → Str
  | some s => s
  | none => "None".toList

/-- A surviving row of the final frame: raw fields, the resolved timestamp
(rows whose timestamp failed to resolve are dropped), and the media flag.
The calendar date, hour and day-of-week columns are direct projections of
`ts` and are not replicated. -/
structure Rec where
  date : Option Str
  time : Option Str
  author : Option Str
  msg : Str
  ts : PyDateTime
  isMedia : Bool
  deriving DecidableEq, Repr

/-- The media flag of a message: equality with `<Media omitted>`, or
(case-sensitive) containment of `<Media omitted>`, or case-insensitive
containment of `omitted` (pandas' `case=False` match, modelled by
lowercasing both sides). -/
def isMediaFlag (m : Str) : Bool :=
  decide (m = "<Media omitted>".toList) ||
  containsSub "<Media omitted>".toList m ||
  containsSub "omitted".toList (m.map Char.toLower)

/-- The post-platform-resolution body of `parse_chat`: assemble raw rows,
fail on zero rows, resolve timestamps (dropping unresolvable rows), fail
when none survive, and attach the media flag. -/
def parseBody (lines : List Str) (p : Str) : Except ChatErr (List Rec) :=
  match assemble (isFmtFor p) (parseLineFor p) lines none none none [] with
  | .error e => .error e
  | .ok raws =>
    if raws = [] then
      .error (.chatParseError "No messages found in chat export".toList)
    else
      if raws.filterMap (fun r =>
          (parseTimestamp (pyStrOf r.date) (pyStrOf r.time) p).map (fun ts =>
            (⟨r.date, r.time, r.author, r.msg, ts, isMediaFlag r.msg⟩ : Rec))) = [] then
        .error (.chatParseError "No valid timestamps found after parsing".toList)
      else
        .ok (raws.filterMap (fun r =>
          (parseTimestamp (pyStrOf r.date) (pyStrOf r.time) p).map (fun ts =>
            (⟨r.date, r.time, r.author, r.msg, ts, isMediaFlag r.msg⟩ : Rec))))

/-- The body of `parse_chat` after decoding: resolve the platform (running
detection under `"auto"`), then parse the lines under it. -/
def parseChatLines (lines : List Str) (platform : Str) : Except ChatErr (List Rec) :=
  match (if platform = "auto".toList then detectPlatform lines else .ok platform) with
  | .error e => .error e
  | .ok p => parseBody lines p

/-! ### Decoding and the top-level entry point -/

/-- Line-break characters recognised by Python's `str.splitlines`
(besides the `\r\n` pair handled separately). -/
def isLineBreakChar (c : Char) : Bool :=
  c = '\n' || c = '\x0b' || c = '\x0c' || c = '\x1c' || c = '\x1d' || c = '\x1e' ||
  c = '\u0085' || c = ' ' || c = ' '

/-- Python `s.splitlines()`: split at line breaks, treating `\r\n` as one
boundary, with no trailing empty line for a trailing terminator. -/
def splitLinesAux : Str → Str → List Str
  | [], acc => if acc = [] then [] else [acc.reverse]
  | '\r' :: '\n' :: r, acc => acc.reverse :: splitLinesAux r []
  | c :: r, acc =>
    if c = '\r' || isLineBreakChar c then acc.reverse :: splitLinesAux r []
    else splitLinesAux r (c :: acc)

def splitLines (s : Str) : List Str := splitLinesAux s []

/-- A UTF-8 continuation byte. -/
def isCont (b : Nat) : Bool := 0x80 ≤ b && b < 0xC0

/-- Strict UTF-8 decoding (rejecting overlong forms, surrogates and
out-of-range code points, as `bytes.decode("utf-8")` does). -/
def utf8Decode : List Nat → Option Str
  | [] => some []
  | b :: r =>
    if b < 0x80 then (utf8Decode r).map (Char.ofNat b :: ·)
    else if b < 0xC2 then none
    else if b < 0xE0 then
      match r with
      | b2 :: r2 =>
        if isCont b2 then
          (utf8Decode r2).map (Char.ofNat (((b - 0xC0) <<< 6) + (b2 - 0x80)) :: ·)
        else none
      | _ => none
    else if b < 0xF0 then
      match r with
      | b2 :: b3 :: r3 =>
        if (if b = 0xE0 then 0xA0 ≤ b2 && b2 < 0xC0
            else if b = 0xED then 0x80 ≤ b2 && b2 < 0xA0
            else isCont b2) && isCont b3 then
          (utf8Decode r3).map
            (Char.ofNat ((((b - 0xE0) <<< 12) + ((b2 - 0x80) <<< 6)) + (b3 - 0x80)) :: ·)
        else none
      | _ => none
    else if b < 0xF5 then
      match r with
      | b2 :: b3 :: b4 :: r4 =>
        if (if b = 0xF0 then 0x90 ≤ b2 && b2 < 0xC0
            else if b = 0xF4 then 0x80 ≤ b2 && b2 < 0x90
            else isCont b2) && isCont b3 && isCont b4 then
          (utf8Decode r4).map
            (Char.ofNat (((((b - 0xF0) <<< 18) + ((b2 - 0x80) <<< 12)) +
              ((b3 - 0x80) <<< 6)) + (b4 - 0x80)) :: ·)
        else none
      | _ => none
    else none

/-- `bytes.decode("utf-8-sig")`: strict UTF-8 after dropping a BOM. -/
def utf8SigDecode (b : List Nat) : Option Str :=
  match b with
  | 0xEF :: 0xBB :: 0xBF :: r => utf8Decode r
  | _ => utf8Decode b

/-- UTF-16 decoding with the given endianness (surrogate pairs combined;
odd lengths and lone surrogates rejected). -/
def utf16Decode (be : Bool) : List Nat → Option Str
  | [] => some []
  | b1 :: b2 :: r =>
    let u := if be then b1 * 256 + b2 else b2 * 256 + b1
    if 0xD800 ≤ u ∧ u < 0xDC00 then
      match r with
      | b3 :: b4 :: r2 =>
        let u2 := if be then b3 * 256 + b4 else b4 * 256 + b3
        if 0xDC00 ≤ u2 ∧ u2 < 0xE000 then
          (utf16Decode be r2).map
            (Char.ofNat (0x10000 + (u - 0xD800) * 0x400 + (u2 - 0xDC00)) :: ·)
        else none
      | _ => none
    else if 0xDC00 ≤ u ∧ u < 0xE000 then none
    else (utf16Decode be r).map (Char.ofNat u :: ·)
  | _ => none

/-- `bytes.decode("utf-16")`: consume a BOM when present, else assume the
native (little-endian) order. -/
def utf16AutoDecode (b : List Nat) : Option Str :=
  match b with
  | 0xFF :: 0xFE :: r => utf16Decode false r
  | 0xFE :: 0xFF :: r => utf16Decode true r
  | _ => utf16Decode false b

/-- `bytes.decode("utf-8", errors="ignore")`: the lossy fallback, dropping
each offending byte.  The first argument is fuel bounding the number of
consumed bytes (each step consumes at least one, so the input's length
suffices). -/
def utf8IgnoreAux : Nat → List Nat → Str
  | 0, _ => []
  | _ + 1, [] => []
  | fuel + 1, b :: r =>
    if b < 0x80 then Char.ofNat b :: utf8IgnoreAux fuel r
    else if b < 0xC2 then utf8IgnoreAux fuel r
    else if b < 0xE0 then
      match r with
      | b2 :: r2 =>
        if isCont b2 then Char.ofNat (((b - 0xC0) <<< 6) + (b2 - 0x80)) :: utf8IgnoreAux fuel r2
        else utf8IgnoreAux fuel r
      | _ => []
    else if b < 0xF0 then
      match r with
      | b2 :: b3 :: r3 =>
        if (if b = 0xE0 then 0xA0 ≤ b2 && b2 < 0xC0
            else if b = 0xED then 0x80 ≤ b2 && b2 < 0xA0
            else isCont b2) && isCont b3 then
          Char.ofNat ((((b - 0xE0) <<< 12) + ((b2 - 0x80) <<< 6)) + (b3 - 0x80)) ::
            utf8IgnoreAux fuel r3
        else utf8IgnoreAux fuel r
      | _ => []
    else if b < 0xF5 then
      match r with
      | b2 :: b3 :: b4 :: r4 =>
        if (if b = 0xF0 then 0x90 ≤ b2 && b2 < 0xC0
            else if b = 0xF4 then 0x80 ≤ b2 && b2 < 0x90
            else isCont b2) && isCont b3 && isCont b4 then
          Char.ofNat (((((b - 0xF0) <<< 18) + ((b2 - 0x80) <<< 12)) +
            ((b3 - 0x80) <<< 6)) + (b4 - 0x80)) :: utf8IgnoreAux fuel r4
        else utf8IgnoreAux fuel r
      | _ => []
    else utf8IgnoreAux fuel r

def utf8IgnoreDecode (l : List Nat) : Str := utf8IgnoreAux l.length l

/-- The `bytes | str` union accepted by `parse_chat` (a `Path` behaves as
its string). -/
inductive PyContent where
  | bytes : List Nat → PyContent
  | str : Str → PyContent

/-- `_decode_file_content`: a string is split into lines directly; bytes
are decoded by the first succeeding encoding of the priority list
(utf-8, utf-8-sig, utf-16, utf-16-le, utf-16-be), falling back to the
lossy utf-8 decode — which cannot itself fail, so the function is total. -/
def decodeFileContent : PyContent → List Str
  | .str s => splitLines s
  | .bytes b =>
    match utf8Decode b with
    | some s => splitLines s
    | none =>
      match utf8SigDecode b with
      | some s => splitLines s
      | none =>
        match utf16AutoDecode b with
        | some s => splitLines s
        | none =>
          match utf16Decode false b with
          | some s => splitLines s
          | none =>
            match utf16Decode true b with
            | some s => splitLines s
            | none => splitLines (utf8IgnoreDecode b)

/-- The ambient filesystem that `Path(file_content).exists()` and
`open(file_content, 'rb').read()` consult. -/
structure FS where
  exist : Str → Bool
  read : Str → List Nat

/-- The body of `parse_chat` before the catch-all: a string argument that
names an existing path is replaced by that file's bytes, the content is
decoded to lines, and the lines are parsed. -/
def parseChatInner (fs : FS) (content : PyContent) (platform : Str) :
    Except ChatErr (List Rec) :=
  let content' := match content with
    | .str s => if fs.exist s then PyContent.bytes (fs.read s) else PyContent.str s
    | .bytes b => PyContent.bytes b
  parseChatLines (decodeFileContent content') platform

/-- `parse_chat`: the whole body runs inside `try`, and the final
`except Exception` re-raises every failure — the internal
`ChatParseError`s and also `PlatformDetectionError` — as
`ChatParseError(f"Chat parsing failed: ...")`. -/
def parseChat (fs : FS) (content : PyContent) (platform : Str) :
    Except ChatErr (List Rec) :=
  match parseChatInner fs content platform with
  | .ok v => .ok v
  | .error e => .error (.chatParseError ("Chat parsing failed: ".toList ++ errMsg e))

/-- A filesystem with no files (the plain-string scenario). -/
def emptyFS : FS := ⟨fun _ => false, fun _ => []⟩

deriving instance DecidableEq for Except

/-- The media predicate exactly as the spec words it: case-insensitive
containment of "omitted", or equality with the exact placeholder. -/
def isMediaClaim (m : Str) : Bool :=
  containsSub "omitted".toList (m.map Char.toLower) ||
  decide (m = "<Media omitted>".toList)

/-- Order-faithful numeric key of a timestamp (radices exceed each field's
range, so the key order is the lexicographic field order). -/
def tsKey (d : PyDateTime) : Nat :=
  ((((d.year * 13 + d.month) * 32 + d.day) * 25 + d.hour) * 61 + d.minute) * 61 + d.second

/-- Ascending-by-timestamp check over a record list. -/
def sortedByTs : List Rec → Bool
  | [] => true
  | [_] => true
  | a :: b :: r => (tsKey a.ts ≤ tsKey b.ts) && sortedByTs (b :: r)

/-- `true` when the parse failed or the returned records are sorted. -/
def outputSorted : Except ChatErr (List Rec) → Bool
  | .ok l => sortedByTs l
  | .error _ => true

/-- Detection exactly as the claim words it: the first 100 *non-empty
normalized* lines are examined (empty lines do not consume the budget),
each format's predicate is counted, and the strict majority wins. -/
def detectPlatformClaim (lines : List Str) : Except ChatErr Str :=
  let sample := ((lines.map (fun l => cleanLine (stripPy l))).filter (· ≠ [])).take 100
  let a := sample.countP isAndroidFormat
  let i := sample.countP isIOSFormat
  if a > i then .ok "android".toList
  else if i > a then .ok "ios".toList
  else .error (.platformDetectionError
    ("Could not determine platform. Android: ".toList ++ natToStr a ++
     ", iOS: ".toList ++ natToStr i))

/-- Detection as amended: at most the first 100 raw lines are examined
(empty lines do consume the budget); among them the non-empty normalized
lines are tallied against each format's predicate, the strict majority
wins, and any tie — including zero-zero — is a detection error. -/
def detectPlatformAmended (lines : List Str) : Except ChatErr Str :=
  let sample := ((lines.take 100).map (fun l => cleanLine (stripPy l))).filter (· ≠ [])
  let a := sample.countP isAndroidFormat
  let i := sample.countP isIOSFormat
  if a > i then .ok "android".toList
  else if i > a then .ok "ios".toList
  else .error (.platformDetectionError
    ("Could not determine platform. Android: ".toList ++ natToStr a ++
     ", iOS: ".toList ++ natToStr i))

/-- The raw fields of a surviving record. -/
def rawOf (r : Rec) : RawRec := ⟨r.date, r.time, r.author, r.msg⟩

/-- The text contributed by the optional meridiem group. -/
def ampmStr : Option Str → Str
  | some p => p
  | none => []

/-- The date part of a matched Android header (before the `", "`). -/
def androidDatePart (g : AndroidG) : Str := g.m ++ '/' :: g.d ++ '/' :: g.y

/-- The time part of a matched Android header (after the `", "`). -/
def androidTimePart (g : AndroidG) : Str := g.h ++ ':' :: g.mi ++ g.ws ++ ampmStr g.ampm

/-- Everything a matched Android header consumes before the `" -"`. -/
def androidPre (g : AndroidG) : Str :=
  androidDatePart g ++ ',' :: ' ' :: androidTimePart g

/-- A filesystem on which exactly the given name exists, as an empty file. -/
def fsWith (s : Str) : FS := ⟨fun t => decide (t = s), fun _ => []⟩

/-! ### Sanity checks mirroring the repository's own test suite -/

example : isAndroidFormat "12/31/2023, 10:15 PM - Alice: Hello!".toList = true := by decide

example : isAndroidFormat "12/31/2023, 22:15 - Alice: Hello!".toList = true := by decide

example : isAndroidFormat "Not an Android format".toList = false := by decide

example : isAndroidFormat "1/2/23, 10:15 -x".toList = true := by decide

example : parseAndroidLine "12/31/2023, 10:15 PM - Alice: Hello there!".toList
    = some ⟨"12/31/2023".toList, "10:15 PM".toList, some "Alice".toList, "Hello there!".toList⟩ := by
  decide

example : parseAndroidLine "12/31/2023, 10:15 PM - System message".toList
    = some ⟨"12/31/2023".toList, "10:15 PM".toList, none, "System message".toList⟩ := by
  decide

example : isIOSFormat "[4/20/23, 4:21:43 AM] Alice: Hello!".toList = true := by decide

example : isIOSFormat "Not an iOS format".toList = false := by decide

example : parseIOSLine "[4/20/23, 4:21:43 AM] Shrey Khandelwal: Ek kaam Karo...".toList
    = some ⟨"4/20/23".toList, "4:21:43 AM".toList, some "Shrey Khandelwal".toList,
        "Ek kaam Karo...".toList⟩ := by decide

example : parseIOSLine "[4/20/23, 4:21:43 AM] System message".toList
    = some ⟨"4/20/23".toList, "4:21:43 AM".toList, none, "System message".toList⟩ := by decide

example : parseTimestamp "12/31/2023".toList "10:15 PM".toList "android".toList
    = some ⟨2023, 12, 31, 22, 15, 0⟩ := by decide

example : parseTimestamp "31/12/2023".toList "22:15".toList "android".toList
    = some ⟨2023, 12, 31, 22, 15, 0⟩ := by decide

example : parseTimestamp "1/1/23".toList "9:30 AM".toList "android".toList
    = some ⟨2023, 1, 1, 9, 30, 0⟩ := by decide

example : parseTimestamp "4/20/23".toList "4:21:43 AM".toList "ios".toList
    = some ⟨2023, 4, 20, 4, 21, 43⟩ := by decide

example : parseTimestamp "20/4/2023".toList "16:21:43".toList "ios".toList
    = some ⟨2023, 4, 20, 16, 21, 43⟩ := by decide

example : parseTimestamp "4-20-23".toList "4:21 PM".toList "ios".toList
    = some ⟨2023, 4, 20, 16, 21, 0⟩ := by decide

example : parseTimestamp "invalid".toList "time".toList "android".toList = none := by decide

example : parseTimestamp "None".toList "None".toList "android".toList = none := by decide

example : natToStr 0 = "0".toList := by decide

example : natToStr 107 = "107".toList := by decide

example : splitLines "a\nb\r\nc\n".toList = ["a".toList, "b".toList, "c".toList] := by decide

example : splitLines "".toList = [] := by decide

example : splitLines "\n\n".toList = [[], []] := by decide

example :
    parseChat emptyFS
      (.str ("12/31/2023, 10:15 PM - Alice: Hello there!\n" ++
             "12/31/2023, 10:16 PM - Bob: Hi Alice!\n").toList)
      "android".toList
    = .ok
        [⟨some "12/31/2023".toList, some "10:15 PM".toList, some "Alice".toList,
          "Hello there!".toList, ⟨2023, 12, 31, 22, 15, 0⟩, false⟩,
         ⟨some "12/31/2023".toList, some "10:16 PM".toList, some "Bob".toList,
          "Hi Alice!".toList, ⟨2023, 12, 31, 22, 16, 0⟩, false⟩] := by decide

example :
    parseChat emptyFS
      (.str ("12/31/2023, 10:15 PM - Alice: Hello there!\n" ++
             "This is a continuation\n" ++
             "of the same message\n" ++
             "12/31/2023, 10:16 PM - Bob: Hi Alice!\n").toList)
      "android".toList
    = .ok
        [⟨some "12/31/2023".toList, some "10:15 PM".toList, some "Alice".toList,
          "Hello there! This is a continuation of the same message".toList,
          ⟨2023, 12, 31, 22, 15, 0⟩, false⟩,
         ⟨some "12/31/2023".toList, some "10:16 PM".toList, some "Bob".toList,
          "Hi Alice!".toList, ⟨2023, 12, 31, 22, 16, 0⟩, false⟩] := by decide

example :
    parseChat emptyFS
      (.str "12/31/2023, 10:16 PM - Bob: <Media omitted>".toList) "android".toList
    = .ok
        [⟨some "12/31/2023".toList, some "10:16 PM".toList, some "Bob".toList,
          "<Media omitted>".toList, ⟨2023, 12, 31, 22, 16, 0⟩, true⟩] := by decide

example :
    parseChat emptyFS (.str "hello".toList) "auto".toList
    = .error (.chatParseError
        "Chat parsing failed: Could not determine platform. Android: 0, iOS: 0".toList) := by
  decide

example :
    parseChat emptyFS (.str "12/31/2023, 10:15 PM - Alice: Hello!".toList)
      "invalid_platform".toList
    = .error (.chatParseError
        "Chat parsing failed: No valid timestamps found after parsing".toList) := by decide

example :
    parseChat emptyFS (.bytes []) "android".toList
    = .error (.chatParseError
        "Chat parsing failed: No messages found in chat export".toList) := by decide

example :
    parseChat emptyFS
      (.str "[4/20/23, 4:21:55 AM] Shrey Khandelwal: Ek kaam Karo".toList) "auto".toList
    = .ok
        [⟨some "4/20/23".toList, some "4:21:55 AM".toList, some "Shrey Khandelwal".toList,
          "Ek kaam Karo".toList, ⟨2023, 4, 20, 4, 21, 55⟩, false⟩] := by decide

/-! ### Properties of `splitFirst` and `containsSub` -/

theorem splitFirst_eq_append {sep s a b : Str}
    (h : splitFirst sep s = some (a, b)) : s = a ++ sep ++ b := by
  induction s generalizing a b with
  | nil =>
    simp only [splitFirst] at h
    split at h
    · rename_i hp
      have hsep : sep = [] := List.prefix_nil.mp (List.isPrefixOf_iff_prefix.mp hp)
      simp only [Option.some.injEq, Prod.mk.injEq] at h
      simp [← h.1, ← h.2, hsep]
    · exact absurd h (by simp)
  | cons c t ih =>
    simp only [splitFirst] at h
    split at h
    · rename_i hp
      obtain ⟨u, hu⟩ := List.isPrefixOf_iff_prefix.mp hp
      simp only [Option.some.injEq, Prod.mk.injEq] at h
      have hb : b = u := by
        rw [← h.2, ← hu, List.drop_left]
      simp [← h.1, hb, ← hu]
    · rename_i hp
      cases hsf : splitFirst sep t with
      | none => rw [hsf] at h; exact absurd h (by simp)
      | some p =>
        rw [hsf] at h
        simp only [Option.map_some', Option.some.injEq, Prod.mk.injEq] at h
        have := ih (a := p.1) (b := p.2) (by rw [hsf])
        rw [← h.1, ← h.2, this]
        simp

theorem splitFirst_isSome_of_pre {sep s : Str}
    (h : sep.isPrefixOf s = true) : (splitFirst sep s).isSome := by
  cases s with
  | nil => simp [splitFirst, h]
  | cons c t => simp [splitFirst, h]

theorem splitFirst_isSome_append (p sep q : Str) :
    (splitFirst sep (p ++ sep ++ q)).isSome := by
  induction p with
  | nil =>
    refine splitFirst_isSome_of_pre (List.isPrefixOf_iff_prefix.mpr ?_)
    simp only [List.nil_append]
    exact List.prefix_append sep q
  | cons c rest ih =>
    simp only [List.cons_append, splitFirst]
    split
    · simp
    · simpa using ih

theorem containsSub_iff {sep s : Str} :
    containsSub sep s = true ↔ ∃ p q, s = p ++ sep ++ q := by
  constructor
  · intro h
    obtain ⟨⟨a, b⟩, hab⟩ := Option.isSome_iff_exists.mp h
    exact ⟨a, b, splitFirst_eq_append hab⟩
  · rintro ⟨p, q, rfl⟩
    exact splitFirst_isSome_append p sep q

theorem containsSub_map (f : Char → Char) {n h : Str}
    (hc : containsSub n h = true) :
    containsSub (n.map f) (h.map f) = true := by
  obtain ⟨p, q, rfl⟩ := containsSub_iff.mp hc
  exact containsSub_iff.mpr ⟨p.map f, q.map f, by simp⟩

theorem containsSub_trans {a b c : Str}
    (h1 : containsSub a b = true) (h2 : containsSub b c = true) :
    containsSub a c = true := by
  obtain ⟨p, q, rfl⟩ := containsSub_iff.mp h1
  obtain ⟨u, v, rfl⟩ := containsSub_iff.mp h2
  exact containsSub_iff.mpr ⟨u ++ p, q ++ v, by simp⟩

/-! ### C10 — media flag -/

/-- C10: for every message text, the computed `is_media` flag agrees with
the spec's characterisation — true iff the text contains "omitted"
case-insensitively or equals `<Media omitted>`.  (The code's middle
disjunct, case-sensitive containment of the full placeholder, is absorbed
by the case-insensitive "omitted" test.) -/
theorem c10_is_media_iff : ∀ m : Str, isMediaFlag m = isMediaClaim m := by
  intro m
  unfold isMediaFlag isMediaClaim
  have hBC : containsSub "<Media omitted>".toList m = true →
      containsSub "omitted".toList (m.map Char.toLower) = true := by
    intro hB
    have h1 : containsSub ("<Media omitted>".toList.map Char.toLower)
        (m.map Char.toLower) = true := containsSub_map Char.toLower hB
    have h2 : containsSub "omitted".toList
        ("<Media omitted>".toList.map Char.toLower) = true := by decide
    exact containsSub_trans h2 h1
  cases hC : containsSub "omitted".toList (m.map Char.toLower) with
  | true => cases hA : decide (m = "<Media omitted>".toList) <;>
      cases hB : containsSub "<Media omitted>".toList m <;> rfl
  | false =>
    have hB : containsSub "<Media omitted>".toList m = false := by
      cases hB : containsSub "<Media omitted>".toList m with
      | true => exact (hBC hB).symm.trans hC
      | false => rfl
    have hA : decide (m = "<Media omitted>".toList) = false := by
      cases hA : decide (m = "<Media omitted>".toList) with
      | true =>
        have hm := of_decide_eq_true hA
        subst hm
        exact absurd hB (by decide)
      | false => rfl
    rw [hA, hB]
    rfl

/-! ### C7 — timestamp template order -/

/-- C7: the resolver's Android template list tries the month-first template
before the day-first one, so the ambiguous "01/02/2023" with "10:15 PM"
resolves to January 2, 2023 at 22:15 — even though the day-first template
alone would read it as February 1 — and inputs matching no template yield
`none` (for either platform) instead of an error. -/
theorem c7_timestamp_template_order :
    parseTimestamp "01/02/2023".toList "10:15 PM".toList "android".toList
      = some ⟨2023, 1, 2, 22, 15, 0⟩ ∧
    strptime "01/02/2023 10:15 PM".toList "%d/%m/%Y %I:%M %p".toList
      = some ⟨2023, 2, 1, 22, 15, 0⟩ ∧
    androidFormats.indexOf "%m/%d/%Y %I:%M %p".toList
      < androidFormats.indexOf "%d/%m/%Y %I:%M %p".toList ∧
    parseTimestamp "foo".toList "bar".toList "android".toList = none ∧
    parseTimestamp "foo".toList "bar".toList "ios".toList = none := by
  refine ⟨by decide, by decide, by decide, by decide, by decide⟩

/-! ### C2 — detection error is wrapped by the catch-all -/

/-- C2 (code bug): with platform `"auto"` and a content sample matching
neither format, `detect_platform` does raise `PlatformDetectionError`
inside the body, but `parse_chat`'s final `except Exception` swallows it
and re-raises `ChatParseError("Chat parsing failed: ...")`, so the caller
never sees the detection kind. -/
theorem c2_detection_error_wrapped_as_parse_error :
    parseChatInner emptyFS (.str "hello".toList) "auto".toList
      = .error (.platformDetectionError
          "Could not determine platform. Android: 0, iOS: 0".toList) ∧
    parseChat emptyFS (.str "hello".toList) "auto".toList
      = .error (.chatParseError
          "Chat parsing failed: Could not determine platform. Android: 0, iOS: 0".toList) := by
  exact ⟨by decide, by decide⟩

/-! ### C3 — invalid platform values raise no ValueError -/

/-- C3 (code bug): with a platform argument outside the three recognised
values, `parse_chat` does not raise `ValueError` — it silently parses under
the iOS branch (the `else` of `platform == "android"`), finds no iOS
headers in the Android-style content, and fails with a wrapped
`ChatParseError` about timestamps instead. -/
theorem c3_invalid_platform_no_value_error :
    parseChat emptyFS (.str "12/31/2023, 10:15 PM - Alice: Hello!".toList)
      "invalid_platform".toList
      = .error (.chatParseError
          "Chat parsing failed: No valid timestamps found after parsing".toList) ∧
    isFmtFor "invalid_platform".toList = isIOSFormat := by
  constructor
  · decide
  · rfl

/-! ### C1 — output order -/

/-- C1 counterexample: a two-message transcript whose second header is one
minute earlier than the first parses successfully, and the returned
sequence is in transcript order — not ascending by timestamp.
`parse_chat` performs no sort (the analyzer does, downstream). -/
theorem c1_parse_output_not_sorted_cex :
    outputSorted
      (parseChat emptyFS
        (.str ("12/31/2023, 10:16 PM - A: x\n12/31/2023, 10:15 PM - B: y").toList)
        "android".toList) = false := by decide

/-! ### Structural facts about the matchers -/

theorem eat_eq {c : Char} {l r : Str} (h : eat c l = some r) : l = c :: r := by
  cases l with
  | nil => exact absurd h (by simp [eat])
  | cons x t =>
    simp only [eat] at h
    split at h
    · rename_i hx
      simp only [Option.some.injEq] at h
      rw [hx, h]
    · exact absurd h (by simp)

theorem eatDigitsRun_eq {lo hi : Nat} {l a r : Str}
    (h : eatDigitsRun lo hi l = some (a, r)) :
    l = a ++ r ∧ (∀ c ∈ a, isDigit c = true) ∧ lo ≤ a.length ∧ a.length ≤ hi := by
  simp only [eatDigitsRun] at h
  split at h
  · rename_i hlen
    simp only [Option.some.injEq, Prod.mk.injEq] at h
    refine ⟨?_, ?_, ?_, ?_⟩
    · rw [← h.1, ← h.2]
      exact (List.takeWhile_append_dropWhile (p := isDigit) (l := l)).symm
    · intro c hc
      rw [← h.1] at hc
      exact List.mem_takeWhile_imp hc
    · rw [← h.1]; exact hlen.1
    · rw [← h.1]; exact hlen.2
  · exact absurd h (by simp)

theorem eatTwoDigits_eq {l a r : Str} (h : eatTwoDigits l = some (a, r)) :
    l = a ++ r ∧ (∀ c ∈ a, isDigit c = true) := by
  match l, h with
  | x :: y :: t, h =>
    simp only [eatTwoDigits] at h
    split at h
    · rename_i hxy
      simp only [Option.some.injEq, Prod.mk.injEq] at h
      obtain ⟨hx, hy⟩ := Bool.and_eq_true_iff.mp hxy
      constructor
      · rw [← h.1, ← h.2]; rfl
      · intro c hc
        rw [← h.1] at hc
        simp only [List.mem_cons, List.not_mem_nil, or_false] at hc
        rcases hc with rfl | rfl
        · exact hx
        · exact hy
    · exact absurd h (by simp)

theorem ampmSplit_eq {l p r : Str} (h : ampmSplit l = some (p, r)) :
    l = p ++ r ∧
      (p = "AM".toList ∨ p = "PM".toList ∨ p = "am".toList ∨ p = "pm".toList) := by
  unfold ampmSplit at h
  split at h <;>
    simp only [Option.some.injEq, Prod.mk.injEq, reduceCtorEq] at h <;>
    simp [← h.1, ← h.2]

/-- An empty digit run cannot satisfy a positive lower bound. -/
theorem eatDigitsRun_head {l a r : Str} (h : eatDigitsRun 1 2 l = some (a, r)) :
    ∃ c t, l = c :: t ∧ isDigit c = true := by
  obtain ⟨hl, hdig, hlo, _⟩ := eatDigitsRun_eq h
  match a, hlo, hl, hdig with
  | c :: rest, _, hl, hdig =>
    exact ⟨c, rest ++ r, by rw [hl]; rfl, hdig c (List.mem_cons_self c rest)⟩

/-- A line matched by the Android pattern starts with a digit. -/
theorem androidMatch_head {l : Str} {g : AndroidG} (h : androidMatch l = some g) :
    ∃ c r, l = c :: r ∧ isDigit c = true := by
  cases h1 : eatDigitsRun 1 2 l with
  | none =>
    exfalso
    have hn : androidMatch l = none := by
      unfold androidMatch
      rw [h1]
    rw [hn] at h
    exact absurd h (by simp)
  | some pr => exact eatDigitsRun_head (a := pr.1) (r := pr.2) (by rw [h1])

/-- A line matched by the iOS pattern starts with an opening bracket. -/
theorem iosMatch_head {l : Str} {g : IOSG} (h : iosMatch l = some g) :
    ∃ r, l = '[' :: r := by
  cases h1 : eat '[' l with
  | none =>
    exfalso
    have hn : iosMatch l = none := by
      unfold iosMatch
      rw [h1]
      rfl
    rw [hn] at h
    exact absurd h (by simp)
  | some r => exact ⟨r, eat_eq h1⟩

/-- The two format matchers are mutually exclusive (a digit is not an
opening bracket), which is why the `elif` in the detection loop tallies
exactly like two independent counts. -/
theorem android_not_ios {l : Str} (h : isAndroidFormat l = true) :
    isIOSFormat l = false := by
  obtain ⟨g, hg⟩ := Option.isSome_iff_exists.mp h
  obtain ⟨c, r, hl, hc⟩ := androidMatch_head hg
  cases hios : isIOSFormat l with
  | false => rfl
  | true =>
    obtain ⟨g2, hg2⟩ := Option.isSome_iff_exists.mp hios
    obtain ⟨r2, hl2⟩ := iosMatch_head hg2
    rw [hl] at hl2
    have hcb : c = '[' := by injection hl2
    rw [hcb] at hc
    exact absurd hc (by decide)

/-! ### C6 — detection sampling budget -/

/-- C6 counterexample: 100 empty lines followed by one Android header.
The claim's reading (empty lines don't consume the budget) would examine
the header and detect Android; the code slices `lines[:100]` first, so the
header is never examined and detection fails with a tie at zero. -/
theorem c6_empty_lines_consume_budget_cex :
    detectPlatformClaim
        (List.replicate 100 ([] : Str) ++ ["12/31/2023, 10:15 PM - A: hi".toList])
      = .ok "android".toList ∧
    detectPlatform
        (List.replicate 100 ([] : Str) ++ ["12/31/2023, 10:15 PM - A: hi".toList])
      = .error (.platformDetectionError
          "Could not determine platform. Android: 0, iOS: 0".toList) := by
  exact ⟨by decide, by decide⟩

theorem detectCounts_spec (L : List Str) (a i : Nat) :
    detectCounts L a i =
      (a + ((L.map (fun l => cleanLine (stripPy l))).filter (· ≠ [])).countP isAndroidFormat,
       i + ((L.map (fun l => cleanLine (stripPy l))).filter (· ≠ [])).countP isIOSFormat) := by
  induction L generalizing a i with
  | nil => simp [detectCounts]
  | cons l rest ih =>
    simp only [detectCounts, List.map_cons]
    by_cases hc : cleanLine (stripPy l) = []
    · rw [if_pos hc, ih]
      simp [List.filter_cons, hc]
    · rw [if_neg hc]
      have hfil :
          ((cleanLine (stripPy l) :: rest.map (fun x => cleanLine (stripPy x))).filter
              (· ≠ [])) =
            cleanLine (stripPy l) ::
              ((rest.map (fun x => cleanLine (stripPy x))).filter (· ≠ [])) := by
        simp [List.filter_cons, hc]
      rw [hfil]
      by_cases ha : isAndroidFormat (cleanLine (stripPy l)) = true
      · rw [if_pos ha, ih]
        have hi : isIOSFormat (cleanLine (stripPy l)) = false := android_not_ios ha
        rw [List.countP_cons, List.countP_cons, ha, hi]
        simp only [Prod.mk.injEq]
        constructor <;> simp [Nat.add_assoc, Nat.add_comm, Nat.add_left_comm]
      · rw [if_neg ha]
        have ha' : isAndroidFormat (cleanLine (stripPy l)) = false := by
          cases h' : isAndroidFormat (cleanLine (stripPy l))
          · rfl
          · exact absurd h' ha
        by_cases hio : isIOSFormat (cleanLine (stripPy l)) = true
        · rw [if_pos hio, ih]
          rw [List.countP_cons, List.countP_cons, ha', hio]
          simp only [Prod.mk.injEq]
          constructor <;> simp [Nat.add_assoc, Nat.add_comm, Nat.add_left_comm]
        · rw [if_neg hio, ih]
          have hio' : isIOSFormat (cleanLine (stripPy l)) = false := by
            cases h' : isIOSFormat (cleanLine (stripPy l))
            · rfl
            · exact absurd h' hio
          rw [List.countP_cons, List.countP_cons, ha', hio']
          simp only [Prod.mk.injEq]
          constructor <;> simp [Nat.add_assoc, Nat.add_comm, Nat.add_left_comm]

/-- C6 as amended: `detect_platform` coincides, on every input, with the
amended description — a budget of the first 100 *raw* lines, independent
per-format tallies over the non-empty normalized ones among them, strict
majority, error on ties. -/
theorem c6_detect_first_100_raw_lines :
    ∀ lines : List Str, detectPlatform lines = detectPlatformAmended lines := by
  intro lines
  unfold detectPlatform detectPlatformAmended
  rw [detectCounts_spec]
  simp

/-! ### C1 (amended) — output preserves transcript order -/

theorem filterMap_ts_sublist (raws : List RawRec) (f : RawRec → Option PyDateTime) :
    ((raws.filterMap (fun r => (f r).map (fun ts =>
        (⟨r.date, r.time, r.author, r.msg, ts, isMediaFlag r.msg⟩ : Rec)))).map rawOf).Sublist
      raws := by
  induction raws with
  | nil => simp
  | cons r rest ih =>
    simp only [List.filterMap_cons]
    cases hf : f r with
    | none => exact ih.cons r
    | some ts =>
      simp only [Option.map_some', List.map_cons]
      exact ih.cons₂ r

/-- C1 as amended: `parse_chat` does not sort.  A successful parse returns
the surviving records in original transcript order — their raw fields form
an in-order sublist of the assembled raw rows (output is chronologically
sorted only when the transcript itself is; sorting happens downstream, in
the analyzer). -/
theorem c1_output_preserves_transcript_order :
    ∀ (lines : List Str) (p : Str) (recs : List Rec),
      p ≠ "auto".toList →
      parseChatLines lines p = .ok recs →
      ∃ raws, assemble (isFmtFor p) (parseLineFor p) lines none none none [] = .ok raws ∧
        (recs.map rawOf).Sublist raws := by
  intro lines p recs hp h
  unfold parseChatLines at h
  rw [if_neg hp] at h
  replace h : parseBody lines p = .ok recs := h
  unfold parseBody at h
  split at h
  · exact Except.noConfusion h
  · rename_i raws has
    refine ⟨raws, has, ?_⟩
    split at h
    · exact Except.noConfusion h
    · split at h
      · exact Except.noConfusion h
      · injection h with h
        rw [← h]
        exact filterMap_ts_sublist raws
          (fun r => parseTimestamp (pyStrOf r.date) (pyStrOf r.time) p)

theorem c1_output_preserves_transcript_order_witness :
    ∃ raws,
      assemble (isFmtFor "android".toList) (parseLineFor "android".toList)
          ["12/31/2023, 10:16 PM - A: x".toList, "12/31/2023, 10:15 PM - B: y".toList]
          none none none [] = .ok raws ∧
      (([⟨some "12/31/2023".toList, some "10:16 PM".toList, some "A".toList, "x".toList,
           ⟨2023, 12, 31, 22, 16, 0⟩, false⟩,
         ⟨some "12/31/2023".toList, some "10:15 PM".toList, some "B".toList, "y".toList,
           ⟨2023, 12, 31, 22, 15, 0⟩, false⟩] : List Rec).map rawOf).Sublist raws :=
  c1_output_preserves_transcript_order
    ["12/31/2023, 10:16 PM - A: x".toList, "12/31/2023, 10:15 PM - B: y".toList]
    "android".toList _ (by decide) (by decide)

/-! ### C4 — lines before the first header -/

/-- C4 counterexample: a non-empty line preceding the first header is not
discarded by the assembly loop — it is buffered and flushed as a raw record
with null date/time/author when the first header arrives. -/
theorem c4_preheader_line_buffered_cex :
    assemble (isFmtFor "android".toList) (parseLineFor "android".toList)
        ["hello".toList, "12/31/2023, 10:15 PM - A: hi".toList] none none none []
      = .ok
          [⟨none, none, none, "hello".toList⟩,
           ⟨some "12/31/2023".toList, some "10:15 PM".toList, some "A".toList,
             "hi".toList⟩] := by decide

theorem mem_flushBuf {d t a : Option Str} {buf : List Str} {r : RawRec}
    (h : r ∈ flushBuf d t a buf) : r.date = d ∧ r.time = t := by
  unfold flushBuf at h
  split at h
  · exact absurd h (by simp)
  · simp only [List.mem_singleton] at h
    rw [h]
    exact ⟨rfl, rfl⟩

/-- Every raw row either carries a header's date and time, or is the
null-dated row flushed from a buffer that started before any header. -/
theorem assemble_inv (isF : Str → Bool) (pl : Str → Option Hdr) (lines : List Str) :
    ∀ (d t a : Option Str) (buf : List Str) (raws : List RawRec),
      ((d = none ∧ t = none) ∨ (d.isSome = true ∧ t.isSome = true)) →
      assemble isF pl lines d t a buf = .ok raws →
      ∀ r ∈ raws,
        (r.date = none ∧ r.time = none) ∨ (r.date.isSome = true ∧ r.time.isSome = true) := by
  induction lines with
  | nil =>
    intro d t a buf raws hdt h r hr
    simp only [assemble] at h
    injection h with h
    rw [← h] at hr
    obtain ⟨hd, ht⟩ := mem_flushBuf hr
    rw [hd, ht]
    exact hdt
  | cons l rest ih =>
    intro d t a buf raws hdt h r hr
    simp only [assemble] at h
    by_cases hcl : cleanLine l = []
    · rw [if_pos hcl] at h
      exact ih d t a buf raws hdt h r hr
    · rw [if_neg hcl] at h
      by_cases hf : isF (cleanLine l) = true
      · rw [if_pos hf] at h
        split at h
        · exact Except.noConfusion h
        · rename_i hdr hpl
          split at h
          · rename_i recs hrec
            injection h with h
            rw [← h] at hr
            rcases List.mem_append.mp hr with hr1 | hr2
            · obtain ⟨hd, ht⟩ := mem_flushBuf hr1
              rw [hd, ht]
              exact hdt
            · exact ih (some hdr.date) (some hdr.time) hdr.author [hdr.msg] recs
                (Or.inr ⟨rfl, rfl⟩) hrec r hr2
          · exact Except.noConfusion h
      · rw [if_neg hf] at h
        exact ih d t a (buf ++ [cleanLine l]) raws hdt h r hr

/-- A row whose date and time were never set parses as the literal string
"None None", which no template accepts — under either format. -/
theorem parseTimestamp_none_none (p : Str) :
    parseTimestamp (pyStrOf none) (pyStrOf none) p = none := by
  unfold parseTimestamp pyStrOf
  by_cases hp : p = "android".toList
  · rw [if_pos hp]; decide
  · rw [if_neg hp]; decide

/-- C4 as amended: content before the first header is buffered and flushed
as a raw record with null date and time, but that record never survives to
`parse_chat`'s output — every returned record carries a header's date and
time (the null-dated row is dropped at timestamp resolution). -/
theorem c4_no_preheader_record_in_output :
    ∀ (lines : List Str) (platform : Str) (recs : List Rec),
      parseChatLines lines platform = .ok recs →
      ∀ r ∈ recs, r.date.isSome = true ∧ r.time.isSome = true := by
  intro lines platform recs h r hr
  unfold parseChatLines at h
  cases hplat : (if platform = "auto".toList then detectPlatform lines else .ok platform) with
  | error e => rw [hplat] at h; exact Except.noConfusion h
  | ok p =>
    rw [hplat] at h
    replace h : parseBody lines p = .ok recs := h
    unfold parseBody at h
    split at h
    · exact Except.noConfusion h
    · rename_i raws has
      split at h
      · exact Except.noConfusion h
      · split at h
        · exact Except.noConfusion h
        · injection h with h
          rw [← h] at hr
          obtain ⟨raw, hmem, hmap⟩ := List.mem_filterMap.mp hr
          cases hts : parseTimestamp (pyStrOf raw.date) (pyStrOf raw.time) p with
          | none => rw [hts] at hmap; exact Option.noConfusion hmap
          | some ts =>
            rw [hts] at hmap
            simp only [Option.map_some', Option.some.injEq] at hmap
            rcases assemble_inv (isFmtFor p) (parseLineFor p) lines none none none []
                raws (Or.inl ⟨rfl, rfl⟩) has raw hmem with ⟨hd, ht⟩ | ⟨hd, ht⟩
            · rw [hd, ht, parseTimestamp_none_none p] at hts
              exact Option.noConfusion hts
            · rw [← hmap]
              exact ⟨hd, ht⟩

/-! ### C5 — matchers gate extraction -/

theorem isDigit_ne {c : Char} (h : isDigit c = true) : c ≠ '-' ∧ c ≠ ',' := by
  refine ⟨fun he => ?_, fun he => ?_⟩ <;> (subst he; exact absurd h (by decide))

theorem isPySpace_ne {c : Char} (h : isPySpace c = true) : c ≠ '-' ∧ c ≠ ',' := by
  refine ⟨fun he => ?_, fun he => ?_⟩ <;> (subst he; exact absurd h (by decide))

theorem androidTail_eq {m d y h mi r10 : Str} {g : AndroidG}
    (hh : androidTail m d y h mi r10 = some g) :
    ∃ ws am rest,
      g = ⟨m, d, y, h, mi, ws, am, rest⟩ ∧
      r10 = ws ++ ampmStr am ++ ' ' :: '-' :: rest ∧
      (∀ c ∈ ws, isPySpace c = true) ∧
      (am = none ∨ ∃ p, am = some p ∧
        (p = "AM".toList ∨ p = "PM".toList ∨ p = "am".toList ∨ p = "pm".toList)) := by
  unfold androidTail at hh
  split at hh
  · rename_i p r12 ham
    split at hh
    · exact Option.noConfusion hh
    · rename_i r13 h13
      split at hh
      · exact Option.noConfusion hh
      · rename_i r14 h14
        injection hh with hh
        obtain ⟨hr11, hopt⟩ := ampmSplit_eq ham
        have hsplit : r10.takeWhile isPySpace ++ r10.dropWhile isPySpace = r10 :=
          List.takeWhile_append_dropWhile isPySpace r10
        refine ⟨r10.takeWhile isPySpace, some p, r14, hh.symm, ?_, ?_, ?_⟩
        · calc r10 = r10.takeWhile isPySpace ++ r10.dropWhile isPySpace := hsplit.symm
            _ = r10.takeWhile isPySpace ++ (p ++ (' ' :: '-' :: r14)) := by
                rw [hr11, eat_eq h13, eat_eq h14]
            _ = r10.takeWhile isPySpace ++ ampmStr (some p) ++ ' ' :: '-' :: r14 := by
                simp [ampmStr, List.append_assoc]
        · intro c hc
          exact List.mem_takeWhile_imp hc
        · exact Or.inr ⟨p, rfl, hopt⟩
  · rename_i hnam
    split at hh
    · rename_i r12 hlast hdrop
      injection hh with hh
      have hne : r10.takeWhile isPySpace ≠ [] := by
        intro he
        rw [he] at hlast
        exact Option.noConfusion hlast
      have hlast2 : (r10.takeWhile isPySpace).getLast hne = ' ' := by
        have h0 := List.getLast?_eq_getLast (r10.takeWhile isPySpace) hne
        rw [h0] at hlast
        exact Option.some.inj hlast
      have hw : (r10.takeWhile isPySpace).dropLast ++ [' '] = r10.takeWhile isPySpace := by
        rw [← hlast2]
        exact List.dropLast_append_getLast hne
      have hsplit : r10.takeWhile isPySpace ++ r10.dropWhile isPySpace = r10 :=
        List.takeWhile_append_dropWhile isPySpace r10
      refine ⟨(r10.takeWhile isPySpace).dropLast, none, r12, hh.symm, ?_, ?_, Or.inl rfl⟩
      · calc r10 = r10.takeWhile isPySpace ++ r10.dropWhile isPySpace := hsplit.symm
          _ = ((r10.takeWhile isPySpace).dropLast ++ [' ']) ++ ('-' :: r12) := by
              rw [hw, hdrop]
          _ = (r10.takeWhile isPySpace).dropLast ++ ampmStr none ++ ' ' :: '-' :: r12 := by
              simp [ampmStr, List.append_assoc]
      · intro c hc
        exact List.mem_takeWhile_imp (List.dropLast_subset _ hc)
    · exact Option.noConfusion hh

/-- Reconstruction of a line from a successful Android match: the line is
the consumed header prefix, then the literal space-hyphen, then the rest;
each numeric group is all digits, the spacing group is all whitespace, and
the meridiem group is one of the four alternation strings. -/
theorem androidMatch_eq {l : Str} {g : AndroidG} (h : androidMatch l = some g) :
    l = androidPre g ++ ' ' :: '-' :: g.rest ∧
    (∀ c ∈ g.m, isDigit c = true) ∧ (∀ c ∈ g.d, isDigit c = true) ∧
    (∀ c ∈ g.y, isDigit c = true) ∧ (∀ c ∈ g.h, isDigit c = true) ∧
    (∀ c ∈ g.mi, isDigit c = true) ∧ (∀ c ∈ g.ws, isPySpace c = true) ∧
    (g.ampm = none ∨ ∃ p, g.ampm = some p ∧
      (p = "AM".toList ∨ p = "PM".toList ∨ p = "am".toList ∨ p = "pm".toList)) := by
  unfold androidMatch at h
  split at h
  · exact Option.noConfusion h
  · rename_i m r1 h1
    split at h
    · exact Option.noConfusion h
    · rename_i r2 h2
      split at h
      · exact Option.noConfusion h
      · rename_i d r3 h3
        split at h
        · exact Option.noConfusion h
        · rename_i r4 h4
          split at h
          · exact Option.noConfusion h
          · rename_i y r5 h5
            split at h
            · exact Option.noConfusion h
            · rename_i r6 h6
              split at h
              · exact Option.noConfusion h
              · rename_i r7 h7
                split at h
                · exact Option.noConfusion h
                · rename_i hh r8 h8
                  split at h
                  · exact Option.noConfusion h
                  · rename_i r9 h9
                    split at h
                    · exact Option.noConfusion h
                    · rename_i mi r10 h10
                      obtain ⟨ws, am, rest, hg, hr10, hws, ham⟩ := androidTail_eq h
                      obtain ⟨hl1, hm, _, _⟩ := eatDigitsRun_eq h1
                      obtain ⟨hl3, hd, _, _⟩ := eatDigitsRun_eq h3
                      obtain ⟨hl5, hy, _, _⟩ := eatDigitsRun_eq h5
                      obtain ⟨hl8, hhd, _, _⟩ := eatDigitsRun_eq h8
                      obtain ⟨hl10, hmi⟩ := eatTwoDigits_eq h10
                      subst hg
                      refine ⟨?_, hm, hd, hy, hhd, hmi, hws, ham⟩
                      rw [hl1, eat_eq h2, hl3, eat_eq h4, hl5, eat_eq h6, eat_eq h7,
                        hl8, eat_eq h9, hl10, hr10]
                      simp [androidPre, androidDatePart, androidTimePart,
                        List.append_assoc]

/-- `splitFirst " - "` on text whose left part contains no hyphen finds
exactly the explicit separator. -/
theorem splitFirst_sep3 (p r : Str) (hp : ∀ c ∈ p, c ≠ '-') :
    splitFirst [' ', '-', ' '] (p ++ ' ' :: '-' :: ' ' :: r) = some (p, r) := by
  induction p with
  | nil =>
    show splitFirst [' ', '-', ' '] (' ' :: '-' :: ' ' :: r) = some ([], r)
    simp [splitFirst, List.isPrefixOf]
  | cons c p' ih =>
    have hpre :
        [' ', '-', ' '].isPrefixOf (c :: (p' ++ ' ' :: '-' :: ' ' :: r)) = false := by
      by_cases hc : c = ' '
      · subst hc
        cases p' with
        | nil => simp [List.isPrefixOf]
        | cons c2 p'' =>
          have hc2 : ('-' : Char) ≠ c2 := fun he => hp c2 (by simp) he.symm
          simp [List.isPrefixOf, hc2]
      · have hc' : (' ' : Char) ≠ c := fun he => hc he.symm
        simp [List.isPrefixOf, hc']
    rw [List.cons_append, splitFirst, hpre]
    simp only [Bool.false_eq_true, if_false]
    rw [ih (fun c hc => hp c (List.mem_cons_of_mem _ hc))]
    rfl

/-- `splitFirst ", "` on text whose left part contains no comma finds
exactly the explicit separator. -/
theorem splitFirst_commaSp (p r : Str) (hp : ∀ c ∈ p, c ≠ ',') :
    splitFirst [',', ' '] (p ++ ',' :: ' ' :: r) = some (p, r) := by
  induction p with
  | nil =>
    show splitFirst [',', ' '] (',' :: ' ' :: r) = some ([], r)
    simp [splitFirst, List.isPrefixOf]
  | cons c p' ih =>
    have hc : (',' : Char) ≠ c := fun he => hp c (List.mem_cons_self c p') he.symm
    have hpre : [',', ' '].isPrefixOf (c :: (p' ++ ',' :: ' ' :: r)) = false := by
      simp [List.isPrefixOf, hc]
    rw [List.cons_append, splitFirst, hpre]
    simp only [Bool.false_eq_true, if_false]
    rw [ih (fun c hc => hp c (List.mem_cons_of_mem _ hc))]
    rfl

/-- Characterwise predicates distribute over append. -/
theorem forall_mem_append_of {P : Char → Prop} {A B : Str}
    (hA : ∀ c ∈ A, P c) (hB : ∀ c ∈ B, P c) : ∀ c ∈ A ++ B, P c := by
  intro c hc
  rcases List.mem_append.mp hc with h | h
  · exact hA c h
  · exact hB c h

/-- Characterwise predicates distribute over cons. -/
theorem forall_mem_cons_of {P : Char → Prop} {x : Char} {B : Str}
    (hx : P x) (hB : ∀ c ∈ B, P c) : ∀ c ∈ x :: B, P c := by
  intro c hc
  rcases List.mem_cons.mp hc with rfl | h
  · exact hx
  · exact hB c h

/-- The meridiem group contains only the letters A, P, M (any case). -/
theorem ampmStr_chars {am : Option Str}
    (ham : am = none ∨ ∃ p, am = some p ∧
      (p = "AM".toList ∨ p = "PM".toList ∨ p = "am".toList ∨ p = "pm".toList)) :
    ∀ c ∈ ampmStr am, c ≠ '-' ∧ c ≠ ',' := by
  rcases ham with rfl | ⟨p, rfl, hps⟩
  · intro c hc
    exact absurd hc (by simp [ampmStr])
  · intro c hc
    simp only [ampmStr] at hc
    rcases hps with rfl | rfl | rfl | rfl <;>
      (simp only [show ("AM".toList : Str) = ['A', 'M'] from rfl,
         show ("PM".toList : Str) = ['P', 'M'] from rfl,
         show ("am".toList : Str) = ['a', 'm'] from rfl,
         show ("pm".toList : Str) = ['p', 'm'] from rfl,
         List.mem_cons, List.not_mem_nil, or_false] at hc ;
       rcases hc with rfl | rfl <;> exact ⟨by decide, by decide⟩)

/-- No character of the matched header prefix is a hyphen. -/
theorem androidPre_no_hyphen {g : AndroidG}
    (hm : ∀ c ∈ g.m, isDigit c = true) (hd : ∀ c ∈ g.d, isDigit c = true)
    (hy : ∀ c ∈ g.y, isDigit c = true) (hh : ∀ c ∈ g.h, isDigit c = true)
    (hmi : ∀ c ∈ g.mi, isDigit c = true) (hws : ∀ c ∈ g.ws, isPySpace c = true)
    (ham : g.ampm = none ∨ ∃ p, g.ampm = some p ∧
      (p = "AM".toList ∨ p = "PM".toList ∨ p = "am".toList ∨ p = "pm".toList)) :
    ∀ c ∈ androidPre g, c ≠ '-' := by
  have hmD : ∀ c ∈ g.m, c ≠ '-' := fun c h => (isDigit_ne (hm c h)).1
  have hdD : ∀ c ∈ g.d, c ≠ '-' := fun c h => (isDigit_ne (hd c h)).1
  have hyD : ∀ c ∈ g.y, c ≠ '-' := fun c h => (isDigit_ne (hy c h)).1
  have hhD : ∀ c ∈ g.h, c ≠ '-' := fun c h => (isDigit_ne (hh c h)).1
  have hmiD : ∀ c ∈ g.mi, c ≠ '-' := fun c h => (isDigit_ne (hmi c h)).1
  have hwsD : ∀ c ∈ g.ws, c ≠ '-' := fun c h => (isPySpace_ne (hws c h)).1
  have hamD : ∀ c ∈ ampmStr g.ampm, c ≠ '-' := fun c h => (ampmStr_chars ham c h).1
  simp only [androidPre, androidDatePart, androidTimePart]
  exact forall_mem_append_of
    (forall_mem_append_of
      (forall_mem_append_of hmD (forall_mem_cons_of (by decide) hdD))
      (forall_mem_cons_of (by decide) hyD))
    (forall_mem_cons_of (by decide) (forall_mem_cons_of (by decide)
      (forall_mem_append_of
        (forall_mem_append_of
          (forall_mem_append_of hhD (forall_mem_cons_of (by decide) hmiD))
          hwsD)
        hamD)))

/-- No character of the matched date part is a comma. -/
theorem androidDatePart_no_comma {g : AndroidG}
    (hm : ∀ c ∈ g.m, isDigit c = true) (hd : ∀ c ∈ g.d, isDigit c = true)
    (hy : ∀ c ∈ g.y, isDigit c = true) :
    ∀ c ∈ androidDatePart g, c ≠ ',' := by
  have hmD : ∀ c ∈ g.m, c ≠ ',' := fun c h => (isDigit_ne (hm c h)).2
  have hdD : ∀ c ∈ g.d, c ≠ ',' := fun c h => (isDigit_ne (hd c h)).2
  have hyD : ∀ c ∈ g.y, c ≠ ',' := fun c h => (isDigit_ne (hy c h)).2
  simp only [androidDatePart]
  exact forall_mem_append_of
    (forall_mem_append_of hmD (forall_mem_cons_of (by decide) hdD))
    (forall_mem_cons_of (by decide) hyD)

/-- C5 counterexample: two lines on which `_is_android_format` returns true
but `_parse_android_line` raises.  The regex only requires `" -"` after the
timestamp, while the extractor splits on `" - "` — so a matching line whose
hyphen is not followed by a space fails the split (unpacking error); and a
matching message part containing `":"` but not `": "` fails the
author/message unpacking. -/
theorem c5_android_match_extract_throws_cex :
    isAndroidFormat "1/2/23, 10:15 -x".toList = true ∧
    parseAndroidLine "1/2/23, 10:15 -x".toList = none ∧
    isAndroidFormat "1/2/23, 10:15 - a:b".toList = true ∧
    parseAndroidLine "1/2/23, 10:15 - a:b".toList = none := by
  exact ⟨by decide, by decide, by decide, by decide⟩

/-- C5 as amended: the guarantee holds unconditionally for the iOS format —
whenever `_is_ios_format` is true, `_parse_ios_line` succeeds — and for the
Android format only under the two conditions the extractor's string
surgery needs: the text after the matched header's `" -"` must start with
a space (so `" - "` occurs at the separator), and the message part must
contain `": "` whenever it contains `":"`. -/
theorem c5_extraction_total_amended :
    ∀ l : Str,
      (isIOSFormat l = true → (parseIOSLine l).isSome = true) ∧
      (∀ g mp, androidMatch l = some g → g.rest = ' ' :: mp →
        (containsSub [':'] mp = true → containsSub [':', ' '] mp = true) →
        (parseAndroidLine l).isSome = true) := by
  intro l
  constructor
  · intro hios
    obtain ⟨g, hg⟩ := Option.isSome_iff_exists.mp hios
    unfold parseIOSLine
    rw [hg]
    cases hsp : splitFirst [':'] (lstripPy g.rest) with
    | none => simp [hsp]
    | some ab =>
      simp only [hsp]
      split <;> simp
  · intro g mp hg hrest hcolon
    obtain ⟨hl, hm, hd, hy, hh, hmi, hws, ham⟩ := androidMatch_eq hg
    rw [hrest] at hl
    have hsplit1 : splitFirst [' ', '-', ' '] l = some (androidPre g, mp) := by
      rw [hl]
      exact splitFirst_sep3 _ _ (androidPre_no_hyphen hm hd hy hh hmi hws ham)
    have hsplit2 :
        splitFirst [',', ' '] (androidPre g)
          = some (androidDatePart g, androidTimePart g) := by
      unfold androidPre
      exact splitFirst_commaSp _ _ (androidDatePart_no_comma hm hd hy)
    unfold parseAndroidLine
    split
    · rename_i heq
      rw [hsplit1] at heq
      exact Option.noConfusion heq
    · rename_i dt mp' heq
      rw [hsplit1] at heq
      injection heq with heq
      injection heq with heq1 heq2
      subst heq1
      subst heq2
      split
      · rename_i heq2
        rw [hsplit2] at heq2
        exact Option.noConfusion heq2
      · rename_i date time heq2
        by_cases hcol : containsSub [':'] mp = true
        · rw [if_pos hcol]
          obtain ⟨ab, hab⟩ := Option.isSome_iff_exists.mp (hcolon hcol)
          obtain ⟨a, b⟩ := ab
          rw [hab]
          rfl
        · rw [if_neg hcol]
          rfl

theorem c5_extraction_total_amended_witness :
    (parseIOSLine "[4/20/23, 4:21:43 AM] Alice: Hello!".toList).isSome = true ∧
    (parseAndroidLine "12/31/2023, 10:15 PM - Alice: Hello!".toList).isSome = true :=
  ⟨(c5_extraction_total_amended "[4/20/23, 4:21:43 AM] Alice: Hello!".toList).1 (by decide),
   (c5_extraction_total_amended "12/31/2023, 10:15 PM - Alice: Hello!".toList).2
     ⟨"12".toList, "31".toList, "2023".toList, "10".toList, "15".toList,
       " ".toList, some "PM".toList, " Alice: Hello!".toList⟩
     "Alice: Hello!".toList (by decide) (by decide) (by decide)⟩

/-! ### C8 — multi-line folding -/

theorem isFmtFor_ne_nil {p x : Str} (h : isFmtFor p x = true) : x ≠ [] := by
  intro he
  subst he
  unfold isFmtFor at h
  by_cases hp : p = "android".toList
  · rw [if_pos hp] at h
    exact absurd h (by decide)
  · rw [if_neg hp] at h
    exact absurd h (by decide)

theorem assemble_nil (isF : Str → Bool) (pl : Str → Option Hdr)
    (d t a : Option Str) (buf : List Str) :
    assemble isF pl [] d t a buf = .ok (flushBuf d t a buf) := rfl

theorem assemble_cons_cont (isF : Str → Bool) (pl : Str → Option Hdr)
    {l : Str} (rest : List Str) (d t a : Option Str) (buf : List Str)
    (h1 : cleanLine l ≠ []) (h2 : isF (cleanLine l) = false) :
    assemble isF pl (l :: rest) d t a buf
      = assemble isF pl rest d t a (buf ++ [cleanLine l]) := by
  simp only [assemble]
  rw [if_neg h1, h2]
  simp

theorem assemble_cons_hdr (isF : Str → Bool) (pl : Str → Option Hdr)
    {l : Str} (rest : List Str) (d t a : Option Str) (buf : List Str) {hdr : Hdr}
    (h1 : cleanLine l ≠ []) (h2 : isF (cleanLine l) = true)
    (h3 : pl (cleanLine l) = some hdr) :
    assemble isF pl (l :: rest) d t a buf
      = match assemble isF pl rest (some hdr.date) (some hdr.time) hdr.author [hdr.msg] with
        | .ok recs => .ok (flushBuf d t a buf ++ recs)
        | .error e => .error e := by
  simp only [assemble]
  rw [if_neg h1, if_pos h2, h3]

/-- C8: a header line, two non-empty non-header lines, and another header
line (both headers extracting and resolving) parse to exactly two records;
the first record's message is the first header's fragment and the two
continuation lines joined by single spaces and trimmed, the second is the
second header's fragment alone. -/
theorem c8_multiline_folding :
    ∀ (l1 l2 l3 l4 p : Str) (h1 h2 : Hdr) (ts1 ts2 : PyDateTime),
      p ≠ "auto".toList →
      isFmtFor p (cleanLine l1) = true →
      parseLineFor p (cleanLine l1) = some h1 →
      cleanLine l2 ≠ [] →
      isFmtFor p (cleanLine l2) = false →
      cleanLine l3 ≠ [] →
      isFmtFor p (cleanLine l3) = false →
      isFmtFor p (cleanLine l4) = true →
      parseLineFor p (cleanLine l4) = some h2 →
      parseTimestamp h1.date h1.time p = some ts1 →
      parseTimestamp h2.date h2.time p = some ts2 →
      parseChatLines [l1, l2, l3, l4] p =
        .ok [⟨some h1.date, some h1.time, h1.author,
               stripPy (joinSp [h1.msg, cleanLine l2, cleanLine l3]), ts1,
               isMediaFlag (stripPy (joinSp [h1.msg, cleanLine l2, cleanLine l3]))⟩,
             ⟨some h2.date, some h2.time, h2.author,
               stripPy (joinSp [h2.msg]), ts2,
               isMediaFlag (stripPy (joinSp [h2.msg]))⟩] := by
  intro l1 l2 l3 l4 p h1 h2 ts1 ts2 hp hf1 hp1 he2 hf2 he3 hf3 hf4 hp4 ht1 ht2
  have hne1 : cleanLine l1 ≠ [] := isFmtFor_ne_nil hf1
  have hne4 : cleanLine l4 ≠ [] := isFmtFor_ne_nil hf4
  have hasm :
      assemble (isFmtFor p) (parseLineFor p) [l1, l2, l3, l4] none none none []
        = .ok [⟨some h1.date, some h1.time, h1.author,
                 stripPy (joinSp [h1.msg, cleanLine l2, cleanLine l3])⟩,
               ⟨some h2.date, some h2.time, h2.author, stripPy (joinSp [h2.msg])⟩] := by
    rw [assemble_cons_hdr _ _ _ _ _ _ _ hne1 hf1 hp1,
      assemble_cons_cont _ _ _ _ _ _ _ he2 hf2,
      assemble_cons_cont _ _ _ _ _ _ _ he3 hf3,
      assemble_cons_hdr _ _ _ _ _ _ _ hne4 hf4 hp4,
      assemble_nil]
    rfl
  have hbody :
      parseBody [l1, l2, l3, l4] p
        = .ok [⟨some h1.date, some h1.time, h1.author,
                 stripPy (joinSp [h1.msg, cleanLine l2, cleanLine l3]), ts1,
                 isMediaFlag (stripPy (joinSp [h1.msg, cleanLine l2, cleanLine l3]))⟩,
               ⟨some h2.date, some h2.time, h2.author,
                 stripPy (joinSp [h2.msg]), ts2,
                 isMediaFlag (stripPy (joinSp [h2.msg]))⟩] := by
    unfold parseBody
    rw [hasm]
    simp only [pyStrOf, List.filterMap_cons, List.filterMap_nil, ht1, ht2,
      Option.map_some']
    rfl
  unfold parseChatLines
  rw [if_neg hp]
  exact hbody

theorem c8_multiline_folding_witness :
    parseChatLines
        ["12/31/2023, 10:15 PM - Alice: Hello there!".toList,
         "This is a continuation".toList,
         "of the same message".toList,
         "12/31/2023, 10:16 PM - Bob: Hi Alice!".toList]
        "android".toList
      = .ok [⟨some "12/31/2023".toList, some "10:15 PM".toList, some "Alice".toList,
               stripPy (joinSp ["Hello there!".toList,
                 cleanLine "This is a continuation".toList,
                 cleanLine "of the same message".toList]),
               ⟨2023, 12, 31, 22, 15, 0⟩,
               isMediaFlag (stripPy (joinSp ["Hello there!".toList,
                 cleanLine "This is a continuation".toList,
                 cleanLine "of the same message".toList]))⟩,
             ⟨some "12/31/2023".toList, some "10:16 PM".toList, some "Bob".toList,
               stripPy (joinSp ["Hi Alice!".toList]), ⟨2023, 12, 31, 22, 16, 0⟩,
               isMediaFlag (stripPy (joinSp ["Hi Alice!".toList]))⟩] :=
  c8_multiline_folding
    "12/31/2023, 10:15 PM - Alice: Hello there!".toList
    "This is a continuation".toList
    "of the same message".toList
    "12/31/2023, 10:16 PM - Bob: Hi Alice!".toList
    "android".toList
    ⟨"12/31/2023".toList, "10:15 PM".toList, some "Alice".toList, "Hello there!".toList⟩
    ⟨"12/31/2023".toList, "10:16 PM".toList, some "Bob".toList, "Hi Alice!".toList⟩
    ⟨2023, 12, 31, 22, 15, 0⟩ ⟨2023, 12, 31, 22, 16, 0⟩
    (by decide) (by decide) (by decide) (by decide) (by decide) (by decide)
    (by decide) (by decide) (by decide) (by decide) (by decide)

/-! ### C9 — strings, paths and the filesystem -/

/-- C9 counterexample: the same content string, parsed under the same
platform hint, gives a successful parse on a filesystem where the string
names no file, and a parse failure on a filesystem where the string names
an (empty) file — `parse_chat` checks `Path(content).exists()` and reads
the file instead of splitting the string. -/
theorem c9_string_path_check_cex :
    parseChat emptyFS (.str "12/31/2023, 10:15 PM - Alice: Hello!".toList)
        "android".toList
      = .ok [⟨some "12/31/2023".toList, some "10:15 PM".toList, some "Alice".toList,
               "Hello!".toList, ⟨2023, 12, 31, 22, 15, 0⟩, false⟩] ∧
    parseChat (fsWith "12/31/2023, 10:15 PM - Alice: Hello!".toList)
        (.str "12/31/2023, 10:15 PM - Alice: Hello!".toList) "android".toList
      = .error (.chatParseError
          "Chat parsing failed: No messages found in chat export".toList) := by
  exact ⟨by decide, by decide⟩

/-- C9 as amended: when the supplied string does not name an existing
filesystem path, the parse depends only on the string's characters — the
filesystem is irrelevant.  (When it does name one, the file's bytes are
read and decoded instead, as the counterexample shows.) -/
theorem c9_string_split_when_not_path :
    ∀ (fs1 fs2 : FS) (s platform : Str),
      fs1.exist s = false → fs2.exist s = false →
      parseChat fs1 (.str s) platform = parseChat fs2 (.str s) platform := by
  intro fs1 fs2 s platform h1 h2
  have e1 : parseChatInner fs1 (.str s) platform = parseChatLines (splitLines s) platform := by
    unfold parseChatInner
    show parseChatLines (decodeFileContent
        (if fs1.exist s = true then PyContent.bytes (fs1.read s) else PyContent.str s))
        platform
      = parseChatLines (splitLines s) platform
    rw [h1]
    rfl
  have e2 : parseChatInner fs2 (.str s) platform = parseChatLines (splitLines s) platform := by
    unfold parseChatInner
    show parseChatLines (decodeFileContent
        (if fs2.exist s = true then PyContent.bytes (fs2.read s) else PyContent.str s))
        platform
      = parseChatLines (splitLines s) platform
    rw [h2]
    rfl
  unfold parseChat
  rw [e1, e2]

theorem c9_string_split_when_not_path_witness :
    parseChat emptyFS (.str "12/31/2023, 10:15 PM - Alice: Hello!".toList)
        "android".toList
      = parseChat ⟨fun _ => false, fun _ => [65]⟩
          (.str "12/31/2023, 10:15 PM - Alice: Hello!".toList) "android".toList :=
  c9_string_split_when_not_path emptyFS ⟨fun _ => false, fun _ => [65]⟩
    "12/31/2023, 10:15 PM - Alice: Hello!".toList "android".toList rfl rfl

theorem c4_no_preheader_record_in_output_witness :
    (⟨some "12/31/2023".toList, some "10:15 PM".toList, some "A".toList, "hi".toList,
        ⟨2023, 12, 31, 22, 15, 0⟩, false⟩ : Rec).date.isSome = true ∧
    (⟨some "12/31/2023".toList, some "10:15 PM".toList, some "A".toList, "hi".toList,
        ⟨2023, 12, 31, 22, 15, 0⟩, false⟩ : Rec).time.isSome = true :=
  c4_no_preheader_record_in_output
    ["hello".toList, "12/31/2023, 10:15 PM - A: hi".toList] "auto".toList
    [⟨some "12/31/2023".toList, some "10:15 PM".toList, some "A".toList, "hi".toList,
        ⟨2023, 12, 31, 22, 15, 0⟩, false⟩]
    (by decide) _ (List.mem_singleton.mpr rfl)
